import Mathlib

/-!
A lease lock over a Redis key: `distribute/lock.go`.

The three methods of `DistributedLock` (`TryLock`, `Unlock`, `Renew`) are
embedded as state-passing functions over a model of the Redis server the
methods talk to.  Every method performs exactly one call on the client:

* `TryLock` calls `client.SetNX(ctx, key, value, expiry)`;
* `Unlock` runs the Lua script `GET == ARGV[1] ? DEL : 0`;
* `Renew` runs the Lua script `GET == ARGV[1] ? EXPIRE ARGV[2] : 0`
  with `ARGV[2] = int(expiry.Seconds())`.

The server part (the commands `SET .. NX`, `SETNX`, `GET`, `DEL`, `EXPIRE`) and
the way the go-redis client turns a `time.Duration` into command arguments are
not in the repository; they are modelled after their documented behaviour and
kept in the first section, apart from the code of the repository.

Time is the server clock, in milliseconds.  Durations are Go durations, in
nanoseconds.
-/

namespace Distribute

/-! ## Durations (Go `time`) -/

/-! A Go `time.Duration` is a signed number of nanoseconds; it is an `Int` here. -/

/-- One millisecond, `time.Millisecond`. -/
def Millisecond : Int := 1000000

/-- One second, `time.Second`. -/
def Second : Int := 1000000000

/-- The Go expression `int(d.Seconds())`: the duration in seconds, truncated
toward zero.  `Seconds` goes through `float64`; the conversion is exact for
every whole number of seconds and agrees with truncated division for all
durations shorter than `2^24` seconds. -/
def secondsInt (d : Int) : Int := Int.tdiv d Second

/-! ## The Redis server -/

/-- One string key of the database: its value and, when it has a time to
live, the clock value (milliseconds) after which it is expired. -/
structure Entry where
  value : String
  expireAt : Option Nat
  deriving DecidableEq, Repr

/-- The database: string keys only.  An expired entry may stay in the map; no
command can see it (see `lookupKey`). -/
abbrev DB := String → Option Entry

/-- The database with no key. -/
def DB.empty : DB := fun _ => none

/-- Bind `key` to `e`. -/
def DB.insert (db : DB) (key : String) (e : Entry) : DB :=
  fun k => if k = key then some e else db k

/-- Remove `key`. -/
def DB.erase (db : DB) (key : String) : DB :=
  fun k => if k = key then none else db k

/-- A key is expired when the clock is past its expiry instant. -/
def Entry.expired (e : Entry) (now : Nat) : Bool :=
  match e.expireAt with
  | none => false
  | some w => decide (w < now)

/-- What every command sees of a key: the entry, unless it is expired. -/
def lookupKey (db : DB) (now : Nat) (key : String) : Option Entry :=
  match db key with
  | some e => if e.expired now then none else some e
  | none => none

/-- Command `GET key`: the value, or nil. -/
def GET (db : DB) (now : Nat) (key : String) : Option String :=
  (lookupKey db now key).map Entry.value

/-- Command `TTL`-like read: the remaining time to live in milliseconds of a
visible key with an expiry. -/
def PTTL (db : DB) (now : Nat) (key : String) : Option Nat :=
  match lookupKey db now key with
  | some e => e.expireAt.map (fun w => w - now)
  | none => none

/-- Command `DEL key`: the number of keys removed. -/
def DEL (db : DB) (now : Nat) (key : String) : Int × DB :=
  match lookupKey db now key with
  | some _ => (1, db.erase key)
  | none => (0, db)

/-- Command `EXPIRE key seconds`: 0 when the key does not exist, 1 otherwise.
A time to live that is not positive deletes the key. -/
def EXPIRE (db : DB) (now : Nat) (key : String) (seconds : Int) : Int × DB :=
  match lookupKey db now key with
  | none => (0, db)
  | some e =>
    if seconds * 1000 ≤ 0 then (1, db.erase key)
    else (1, db.insert key ⟨e.value, some (now + (seconds * 1000).toNat)⟩)

/-- The expiry option of a `SET` command. -/
inductive SetExpire
  | absent
  | keepTTL
  | ex (seconds : Int)
  | px (millis : Int)
  deriving DecidableEq, Repr

/-- The time to live a `SET` option asks for, in milliseconds. -/
def SetExpire.millis : SetExpire → Option Int
  | .absent => none
  | .keepTTL => none
  | .ex s => some (s * 1000)
  | .px ms => some ms

/-- Command `SET key value [EX s | PX ms | KEEPTTL] NX` (and `SETNX key value`
for `absent`): an expiry that is not positive is refused with an error reply;
otherwise the key is created when it does not exist.  The reply is read as a
boolean: true when the key was created. -/
def SETNX (db : DB) (now : Nat) (key value : String) (exp : SetExpire) :
    Except String Bool × DB :=
  match exp.millis with
  | some ms =>
    if ms ≤ 0 then (.error "ERR invalid expire time in set", db)
    else
      match lookupKey db now key with
      | some _ => (.ok false, db)
      | none => (.ok true, db.insert key ⟨value, some (now + ms.toNat)⟩)
  | none =>
    match lookupKey db now key with
    | some _ => (.ok false, db)
    | none => (.ok true, db.insert key ⟨value, none⟩)

/-! ## The go-redis client -/

/-- The errors a method can return: the one the lock code makes itself, and
whatever the client reports for a store call. -/
inductive Error
  | notHeld
  | store (msg : String)
  deriving DecidableEq, Repr

/-- The text of an error. -/
def Error.message : Error → String
  | .notHeld => "lock not held by current client"
  | .store msg => msg

/-- What happens to one round trip: it goes through, or the request is lost
before the server runs it, or the server runs it and the reply is lost (a
network failure, a deadline of the context). -/
inductive Fault
  | healthy
  | requestLost (msg : String)
  | replyLost (msg : String)
  deriving DecidableEq, Repr

/-- The circumstances of one call: the server clock (milliseconds) at which
the command runs, and the fate of the round trip. -/
structure Ctx where
  now : Nat
  fault : Fault
  deriving DecidableEq, Repr

/-- The client handle together with the server behind it: the database, and
the number of calls the lock code has made on the client so far. -/
structure Client where
  db : DB
  calls : Nat

/-- One call on the client: a single command (or script) sent to the server. -/
def Client.roundTrip {α : Type} (c : Client) (ctx : Ctx)
    (cmd : DB → Nat → Except String α × DB) : Except Error α × Client :=
  match ctx.fault with
  | .healthy =>
    match cmd c.db ctx.now with
    | (.ok a, db) => (.ok a, ⟨db, c.calls + 1⟩)
    | (.error msg, db) => (.error (.store msg), ⟨db, c.calls + 1⟩)
  | .requestLost msg => (.error (.store msg), ⟨c.db, c.calls + 1⟩)
  | .replyLost msg => (.error (.store msg), ⟨(cmd c.db ctx.now).2, c.calls + 1⟩)

/-- Constant `redis.KeepTTL`. -/
def KeepTTL : Int := -1

/-- Whether go-redis sends the expiry in milliseconds (`PX`). -/
def usePrecise (dur : Int) : Bool :=
  decide (dur < Second) || decide (Int.tmod dur Second ≠ 0)

/-- The `PX` argument go-redis sends for a duration. -/
def formatMs (dur : Int) : Int :=
  if 0 < dur ∧ dur < Millisecond then 1 else Int.tdiv dur Millisecond

/-- The `EX` argument go-redis sends for a duration. -/
def formatSec (dur : Int) : Int :=
  if 0 < dur ∧ dur < Second then 1 else Int.tdiv dur Second

/-- The expiry option `client.SetNX` puts in the command: none for a zero
expiration (plain `SETNX`, the key gets no time to live), `KEEPTTL` for
`redis.KeepTTL`, otherwise `PX` or `EX`. -/
def setNXExpire (expiration : Int) : SetExpire :=
  if expiration = 0 then .absent
  else if expiration = KeepTTL then .keepTTL
  else if usePrecise expiration then .px (formatMs expiration)
  else .ex (formatSec expiration)

/-- Client method `client.SetNX(ctx, key, value, expiration)`. -/
def Client.SetNX (c : Client) (ctx : Ctx) (key value : String) (expiration : Int) :
    Except Error Bool × Client :=
  c.roundTrip ctx (fun db now => SETNX db now key value (setNXExpire expiration))

/-- Client method `script.Run(ctx, client, keys, args...)` for a script that
replies with an integer.  It is one call of the lock code on the client; the
client may need two commands for it (`EVALSHA`, then `EVAL` when the server
does not know the script yet), and the script runs once. -/
def Client.Run (c : Client) (ctx : Ctx) (script : DB → Nat → Int × DB) :
    Except Error Int × Client :=
  c.roundTrip ctx (fun db now => (.ok (script db now).1, (script db now).2))

/-! ## `distribute/lock.go` -/

/-- The lock: the key, the owner value and the lease duration.  The client
field of the Go struct is the `Client` state the methods are passed. -/
structure DistributedLock where
  key : String
  value : String
  expiry : Int
  deriving DecidableEq, Repr

/-- Constructor `NewDistributedLock`. -/
def NewDistributedLock (key value : String) (expiry : Int) : DistributedLock :=
  ⟨key, value, expiry⟩

/-- The Lua script of `Unlock`, with `KEYS[1]` and `ARGV[1]`. -/
def unlockScript (KEYS1 ARGV1 : String) (db : DB) (now : Nat) : Int × DB :=
  if GET db now KEYS1 = some ARGV1 then DEL db now KEYS1 else (0, db)

/-- The Lua script of `Renew`, with `KEYS[1]`, `ARGV[1]` and `ARGV[2]`. -/
def renewScript (KEYS1 ARGV1 : String) (ARGV2 : Int) (db : DB) (now : Nat) : Int × DB :=
  if GET db now KEYS1 = some ARGV1 then EXPIRE db now KEYS1 ARGV2 else (0, db)

/-- Method `TryLock`: the boolean and the error it returns, and the client
afterwards. -/
def DistributedLock.TryLock (lock : DistributedLock) (ctx : Ctx) (c : Client) :
    (Bool × Option Error) × Client :=
  let result := c.SetNX ctx lock.key lock.value lock.expiry
  match result.1 with
  | .error err => ((false, some err), result.2)
  | .ok val => ((val, none), result.2)

/-- Method `Unlock`: the error it returns (`none` is Go `nil`), and the client
afterwards. -/
def DistributedLock.Unlock (lock : DistributedLock) (ctx : Ctx) (c : Client) :
    Option Error × Client :=
  let r := c.Run ctx (unlockScript lock.key lock.value)
  match r.1 with
  | .error err => (some err, r.2)
  | .ok result => if result = 0 then (some .notHeld, r.2) else (none, r.2)

/-- Method `Renew`: the error it returns, and the client afterwards. -/
def DistributedLock.Renew (lock : DistributedLock) (ctx : Ctx) (c : Client) :
    Option Error × Client :=
  let r := c.Run ctx (renewScript lock.key lock.value (secondsInt lock.expiry))
  match r.1 with
  | .error err => (some err, r.2)
  | .ok result => if result = 0 then (some .notHeld, r.2) else (none, r.2)


/-! ## Derived notions -/

/-- The expiry instant `TryLock` gives to a key it creates at clock `now`:
none when the key gets no time to live. -/
def leaseEnd (now : Nat) (d : Int) : Option Nat :=
  (setNXExpire d).millis.map (fun ms => now + ms.toNat)

/-- The server accepts the expiry `TryLock` sends for the duration `d`. -/
def expiryAccepted (d : Int) : Prop :=
  ∀ ms, (setNXExpire d).millis = some ms → 0 < ms

/-- The lock does not own its key: the key is absent, or holds another value. -/
def notOwner (lock : DistributedLock) (db : DB) (now : Nat) : Prop :=
  GET db now lock.key = none ∨ ∃ v, GET db now lock.key = some v ∧ v ≠ lock.value

/-- The kind of a call on a lock. -/
inductive Op
  | tryLock
  | unlock
  | renew
  deriving DecidableEq, Repr

/-- One call in a history: which lock, which method, in which circumstances. -/
structure Step where
  lock : DistributedLock
  op : Op
  ctx : Ctx
  deriving DecidableEq, Repr

/-- The client after a call of the history. -/
def Step.run (st : Step) (c : Client) : Client :=
  match st.op with
  | .tryLock => (st.lock.TryLock st.ctx c).2
  | .unlock => (st.lock.Unlock st.ctx c).2
  | .renew => (st.lock.Renew st.ctx c).2

/-- The client after a history of calls, first call first. -/
def runSteps : List Step → Client → Client
  | [], c => c
  | st :: rest, c => runSteps rest (st.run c)

/-- The call is an `Unlock` or a `Renew` made with the key and the value of
`owner`: a release or a renewal of the lease of `owner`. -/
def Step.actsFor (st : Step) (owner : DistributedLock) : Prop :=
  st.op ≠ .tryLock ∧ st.lock.key = owner.key ∧ st.lock.value = owner.value

/-- The instant `a` (server clock, milliseconds) is earlier than the instant
`t` plus the duration `d`. -/
def earlierThan (a t : Nat) (d : Int) : Prop :=
  (a : Int) * Millisecond < (t : Int) * Millisecond + d

/-! ## Theorems -/

theorem notOwner_iff (lock : DistributedLock) (db : DB) (now : Nat) :
    notOwner lock db now ↔ GET db now lock.key ≠ some lock.value := by
  unfold notOwner
  cases h : GET db now lock.key with
  | none => simp
  | some v => simp

theorem SETNX_cases (db : DB) (now : Nat) (key value : String) (exp : SetExpire) :
    (∃ ms, exp.millis = some ms ∧ ms ≤ 0 ∧
        SETNX db now key value exp = (.error "ERR invalid expire time in set", db)) ∨
    ((∀ ms, exp.millis = some ms → 0 < ms) ∧ (∃ e, lookupKey db now key = some e) ∧
        SETNX db now key value exp = (.ok false, db)) ∨
    ((∀ ms, exp.millis = some ms → 0 < ms) ∧ lookupKey db now key = none ∧
        SETNX db now key value exp =
          (.ok true, db.insert key ⟨value, exp.millis.map (fun ms => now + ms.toNat)⟩)) := by
  unfold SETNX
  cases hm : exp.millis with
  | none =>
    cases hl : lookupKey db now key with
    | none => simp
    | some e => simp
  | some ms =>
    by_cases hms : ms ≤ 0
    · left; exact ⟨ms, rfl, hms, by simp [hms]⟩
    · have hpos : 0 < ms := not_le.mp hms
      cases hl : lookupKey db now key with
      | none => right; right; simp [hms, hpos]
      | some e => right; left; simp [hms, hpos]

theorem tryLock_healthy_cases (lock : DistributedLock) (t : Nat) (c : Client) :
    (¬ expiryAccepted lock.expiry ∧
        lock.TryLock ⟨t, .healthy⟩ c =
          ((false, some (.store "ERR invalid expire time in set")), ⟨c.db, c.calls + 1⟩)) ∨
    (expiryAccepted lock.expiry ∧ (∃ e, lookupKey c.db t lock.key = some e) ∧
        lock.TryLock ⟨t, .healthy⟩ c = ((false, none), ⟨c.db, c.calls + 1⟩)) ∨
    (expiryAccepted lock.expiry ∧ lookupKey c.db t lock.key = none ∧
        lock.TryLock ⟨t, .healthy⟩ c =
          ((true, none),
            ⟨c.db.insert lock.key ⟨lock.value, leaseEnd t lock.expiry⟩, c.calls + 1⟩)) := by
  unfold DistributedLock.TryLock Client.SetNX Client.roundTrip expiryAccepted leaseEnd
  rcases SETNX_cases c.db t lock.key lock.value (setNXExpire lock.expiry) with
    ⟨ms, hm, hle, h⟩ | ⟨hacc, hl, h⟩ | ⟨hacc, hl, h⟩
  · left
    refine ⟨fun hacc => absurd (hacc ms hm) (not_lt.mpr hle), ?_⟩
    simp [h]
  · right; left
    exact ⟨hacc, hl, by simp [h]⟩
  · right; right
    exact ⟨hacc, hl, by simp [h]⟩

theorem GET_eq_some_iff (db : DB) (now : Nat) (key v : String) :
    GET db now key = some v ↔ ∃ e, lookupKey db now key = some e ∧ e.value = v := by
  unfold GET
  cases lookupKey db now key <;> simp

theorem DEL_of_GET (db : DB) (now : Nat) (key v : String) (h : GET db now key = some v) :
    DEL db now key = (1, db.erase key) := by
  obtain ⟨e, he, _⟩ := (GET_eq_some_iff db now key v).mp h
  simp [DEL, he]

theorem EXPIRE_fst_of_GET (db : DB) (now : Nat) (key v : String) (seconds : Int)
    (h : GET db now key = some v) : (EXPIRE db now key seconds).1 = 1 := by
  obtain ⟨e, he, _⟩ := (GET_eq_some_iff db now key v).mp h
  unfold EXPIRE
  simp only [he]
  split <;> rfl

theorem unlock_healthy (lock : DistributedLock) (t : Nat) (c : Client) :
    lock.Unlock ⟨t, .healthy⟩ c =
      if GET c.db t lock.key = some lock.value then (none, ⟨c.db.erase lock.key, c.calls + 1⟩)
      else (some .notHeld, ⟨c.db, c.calls + 1⟩) := by
  unfold DistributedLock.Unlock Client.Run Client.roundTrip unlockScript
  by_cases h : GET c.db t lock.key = some lock.value
  · simp [h, DEL_of_GET c.db t lock.key lock.value h]
  · simp [h]

theorem renew_healthy (lock : DistributedLock) (t : Nat) (c : Client) :
    lock.Renew ⟨t, .healthy⟩ c =
      if GET c.db t lock.key = some lock.value then
        (none, ⟨(EXPIRE c.db t lock.key (secondsInt lock.expiry)).2, c.calls + 1⟩)
      else (some .notHeld, ⟨c.db, c.calls + 1⟩) := by
  unfold DistributedLock.Renew Client.Run Client.roundTrip renewScript
  by_cases h : GET c.db t lock.key = some lock.value
  · simp [h, EXPIRE_fst_of_GET c.db t lock.key lock.value _ h]
  · simp [h]

/-- The database after a call is the one before, or the one the command leaves. -/
theorem roundTrip_db {α : Type} (c : Client) (ctx : Ctx)
    (cmd : DB → Nat → Except String α × DB) :
    (c.roundTrip ctx cmd).2.db = c.db ∨ (c.roundTrip ctx cmd).2.db = (cmd c.db ctx.now).2 := by
  unfold Client.roundTrip
  cases ctx.fault with
  | healthy =>
    right
    rcases h : cmd c.db ctx.now with ⟨r, db⟩
    cases r <;> simp
  | requestLost msg => left; rfl
  | replyLost msg => right; rfl

theorem roundTrip_calls {α : Type} (c : Client) (ctx : Ctx)
    (cmd : DB → Nat → Except String α × DB) :
    (c.roundTrip ctx cmd).2.calls = c.calls + 1 := by
  unfold Client.roundTrip
  cases ctx.fault with
  | healthy =>
    rcases h : cmd c.db ctx.now with ⟨r, db⟩
    cases r <;> simp
  | requestLost msg => rfl
  | replyLost msg => rfl

theorem roundTrip_fault {α : Type} (c : Client) (ctx : Ctx)
    (cmd : DB → Nat → Except String α × DB) (e : String)
    (h : ctx.fault = .requestLost e ∨ ctx.fault = .replyLost e) :
    (c.roundTrip ctx cmd).1 = .error (.store e) := by
  unfold Client.roundTrip
  rcases h with h | h <;> simp [h]

theorem tryLock_snd (lock : DistributedLock) (ctx : Ctx) (c : Client) :
    (lock.TryLock ctx c).2 = (c.SetNX ctx lock.key lock.value lock.expiry).2 := by
  unfold DistributedLock.TryLock
  dsimp only
  split <;> rfl

theorem unlock_snd (lock : DistributedLock) (ctx : Ctx) (c : Client) :
    (lock.Unlock ctx c).2 = (c.Run ctx (unlockScript lock.key lock.value)).2 := by
  unfold DistributedLock.Unlock
  dsimp only
  split
  · rfl
  · split <;> rfl

theorem renew_snd (lock : DistributedLock) (ctx : Ctx) (c : Client) :
    (lock.Renew ctx c).2 =
      (c.Run ctx (renewScript lock.key lock.value (secondsInt lock.expiry))).2 := by
  unfold DistributedLock.Renew
  dsimp only
  split
  · rfl
  · split <;> rfl

theorem tryLock_db (lock : DistributedLock) (ctx : Ctx) (c : Client) :
    (lock.TryLock ctx c).2.db = c.db ∨
      (lock.TryLock ctx c).2.db =
        (SETNX c.db ctx.now lock.key lock.value (setNXExpire lock.expiry)).2 := by
  rw [tryLock_snd]
  exact roundTrip_db c ctx _

theorem unlock_db (lock : DistributedLock) (ctx : Ctx) (c : Client) :
    (lock.Unlock ctx c).2.db = c.db ∨
      (lock.Unlock ctx c).2.db = (unlockScript lock.key lock.value c.db ctx.now).2 := by
  rw [unlock_snd]
  exact roundTrip_db c ctx _

theorem renew_db (lock : DistributedLock) (ctx : Ctx) (c : Client) :
    (lock.Renew ctx c).2.db = c.db ∨
      (lock.Renew ctx c).2.db =
        (renewScript lock.key lock.value (secondsInt lock.expiry) c.db ctx.now).2 := by
  rw [renew_snd]
  exact roundTrip_db c ctx _

theorem SETNX_present (db : DB) (now : Nat) (key value : String) (exp : SetExpire) (e : Entry)
    (h : lookupKey db now key = some e) : (SETNX db now key value exp).2 = db := by
  rcases SETNX_cases db now key value exp with ⟨ms, _, _, h1⟩ | ⟨_, _, h1⟩ | ⟨_, hl, _⟩
  · rw [h1]
  · rw [h1]
  · rw [h] at hl; cases hl

/-- The boolean of `TryLock` is true only when the command went through and
created the key. -/
theorem tryLock_true_iff (lock : DistributedLock) (ctx : Ctx) (c : Client) :
    (lock.TryLock ctx c).1.1 = true ↔
      ctx.fault = .healthy ∧ expiryAccepted lock.expiry ∧
        lookupKey c.db ctx.now lock.key = none := by
  cases hf : ctx.fault with
  | healthy =>
    have hctx : ctx = ⟨ctx.now, .healthy⟩ := by cases ctx; simp_all
    rw [hctx]
    rcases tryLock_healthy_cases lock ctx.now c with ⟨hn, h⟩ | ⟨ha, ⟨e, he⟩, h⟩ | ⟨ha, hl, h⟩
    · simp [h, hn]
    · simp [h, he]
    · simp [h, ha, hl]
  | requestLost msg =>
    simp [DistributedLock.TryLock, Client.SetNX, Client.roundTrip, hf]
  | replyLost msg =>
    simp [DistributedLock.TryLock, Client.SetNX, Client.roundTrip, hf]

/-- The error of `TryLock` is nil only when the command went through and the
server accepted it. -/
theorem tryLock_err_none_iff (lock : DistributedLock) (ctx : Ctx) (c : Client) :
    (lock.TryLock ctx c).1.2 = none ↔ ctx.fault = .healthy ∧ expiryAccepted lock.expiry := by
  cases hf : ctx.fault with
  | healthy =>
    have hctx : ctx = ⟨ctx.now, .healthy⟩ := by cases ctx; simp_all
    rw [hctx]
    rcases tryLock_healthy_cases lock ctx.now c with ⟨hn, h⟩ | ⟨ha, ⟨e, he⟩, h⟩ | ⟨ha, hl, h⟩
    · simp [h, hn]
    · simp [h, ha]
    · simp [h, ha]
  | requestLost msg =>
    simp [DistributedLock.TryLock, Client.SetNX, Client.roundTrip, hf]
  | replyLost msg =>
    simp [DistributedLock.TryLock, Client.SetNX, Client.roundTrip, hf]

/-! ### C10: a contended `TryLock` has no effect -/

/-- A `TryLock` on a visible key returns false and leaves the database alone. -/
theorem tryLock_contended_frame (lock : DistributedLock) (ctx : Ctx) (c : Client)
    (e : Entry) (h : lookupKey c.db ctx.now lock.key = some e) :
    (lock.TryLock ctx c).1.1 = false ∧ (lock.TryLock ctx c).2.db = c.db := by
  have hdb : (lock.TryLock ctx c).2.db = c.db := by
    rcases tryLock_db lock ctx c with h1 | h1
    · exact h1
    · rw [h1]; exact SETNX_present c.db ctx.now lock.key lock.value _ e h
  refine ⟨?_, hdb⟩
  cases hb : (lock.TryLock ctx c).1.1 with
  | false => rfl
  | true =>
    have := ((tryLock_true_iff lock ctx c).mp hb).2.2
    rw [h] at this; cases this

/-- C10. When the key of the lock is present in the store with any value
(the own value of the lock included), `TryLock` returns false and leaves the
database as it was: the stored value and its expiry are untouched.  This holds
whatever the fate of the round trip. -/
theorem tryLock_contended_no_effect (lock : DistributedLock) (ctx : Ctx) (c : Client)
    (e : Entry) (h : lookupKey c.db ctx.now lock.key = some e) :
    (lock.TryLock ctx c).1.1 = false ∧ (lock.TryLock ctx c).2.db = c.db ∧
      GET (lock.TryLock ctx c).2.db ctx.now lock.key = some e.value ∧
      PTTL (lock.TryLock ctx c).2.db ctx.now lock.key = PTTL c.db ctx.now lock.key := by
  obtain ⟨hfalse, hdb⟩ := tryLock_contended_frame lock ctx c e h
  refine ⟨hfalse, hdb, ?_, ?_⟩
  · rw [hdb]; simp [GET, h]
  · rw [hdb]

/-- C10, at a concrete input: the owner of the key tries to lock again. -/
theorem tryLock_contended_no_effect_witness :
    lookupKey (DB.empty.insert "job-42" ⟨"A1", some 10000⟩) 0 "job-42"
        = some ⟨"A1", some 10000⟩ ∧
      ((DistributedLock.mk "job-42" "A1" (5 * Second)).TryLock ⟨0, .healthy⟩
          ⟨DB.empty.insert "job-42" ⟨"A1", some 10000⟩, 0⟩).1.1 = false :=
  ⟨by decide,
   (tryLock_contended_no_effect (DistributedLock.mk "job-42" "A1" (5 * Second)) ⟨0, .healthy⟩
      ⟨DB.empty.insert "job-42" ⟨"A1", some 10000⟩, 0⟩ ⟨"A1", some 10000⟩ (by decide)).1⟩

/-! ### C4: `TryLock` is set-if-absent -/

/-- C4 fails as stated.  A lock with a zero expiry acquires an absent key, and
the key is stored with no time to live at all: it never expires. -/
theorem tryLock_zero_expiry_no_ttl :
    ((DistributedLock.mk "job-42" "A1" 0).TryLock ⟨0, .healthy⟩ ⟨DB.empty, 0⟩).1 = (true, none) ∧
      ((DistributedLock.mk "job-42" "A1" 0).TryLock ⟨0, .healthy⟩ ⟨DB.empty, 0⟩).2.db "job-42"
        = some ⟨"A1", none⟩ ∧
      (∀ now, PTTL ((DistributedLock.mk "job-42" "A1" 0).TryLock ⟨0, .healthy⟩
          ⟨DB.empty, 0⟩).2.db now "job-42" = none) ∧
      (∀ now, GET ((DistributedLock.mk "job-42" "A1" 0).TryLock ⟨0, .healthy⟩
          ⟨DB.empty, 0⟩).2.db now "job-42" = some "A1") := by
  refine ⟨by decide, by decide, ?_, ?_⟩
  · intro now
    have h : ((DistributedLock.mk "job-42" "A1" 0).TryLock ⟨0, .healthy⟩
        ⟨DB.empty, 0⟩).2.db "job-42" = some ⟨"A1", none⟩ := by decide
    simp [PTTL, lookupKey, h, Entry.expired]
  · intro now
    have h : ((DistributedLock.mk "job-42" "A1" 0).TryLock ⟨0, .healthy⟩
        ⟨DB.empty, 0⟩).2.db "job-42" = some ⟨"A1", none⟩ := by decide
    simp [GET, lookupKey, h, Entry.expired]

theorem leaseEnd_zero (t : Nat) : leaseEnd t 0 = none := by
  simp [leaseEnd, setNXExpire, SetExpire.millis]

theorem tdiv_mul_thousand (n : Int) (h : 0 ≤ n) :
    Int.tdiv (n * 1000000) 1000000 = n := by
  rw [Int.tdiv_eq_ediv (by omega) (by omega)]
  omega

theorem setNXExpire_millis_whole (ms : Nat) (h : 0 < ms) :
    (setNXExpire ((ms : Int) * Millisecond)).millis = some (ms : Int) := by
  have hpos : (0 : Int) < ms := by exact_mod_cast h
  have h0 : ¬ ((ms : Int) * 1000000 = 0) := by omega
  have h1 : ¬ ((ms : Int) * 1000000 = -1) := by omega
  have h2 : ¬ (0 < (ms : Int) * 1000000 ∧ (ms : Int) * 1000000 < 1000000) := by omega
  unfold setNXExpire KeepTTL Millisecond
  rw [if_neg h0, if_neg h1]
  by_cases hp : usePrecise ((ms : Int) * 1000000) = true
  · rw [if_pos hp]
    simp only [SetExpire.millis, formatMs, Millisecond]
    rw [if_neg h2, tdiv_mul_thousand _ (by omega)]
  · rw [if_neg hp]
    simp only [usePrecise, Second, Bool.or_eq_true, decide_eq_true_eq, not_or, not_lt,
      ne_eq, not_not] at hp
    obtain ⟨h3, h4⟩ := hp
    have h3 : (1000000000 : Int) ≤ (ms : Int) * 1000000 := h3
    have h4 : Int.tmod ((ms : Int) * 1000000) 1000000000 = 0 := h4
    have h5 : ¬ (0 < (ms : Int) * 1000000 ∧ (ms : Int) * 1000000 < 1000000000) := by omega
    simp only [SetExpire.millis, formatSec, Second]
    rw [if_neg h5]
    rw [Int.tmod_eq_emod (by omega) (by omega)] at h4
    rw [Int.tdiv_eq_ediv (by omega) (by omega)]
    congr 1
    omega

theorem leaseEnd_whole (t ms : Nat) (h : 0 < ms) :
    leaseEnd t ((ms : Int) * Millisecond) = some (t + ms) := by
  simp [leaseEnd, setNXExpire_millis_whole ms h]

/-- C4, amended.  When the store call succeeds, `TryLock` returns true exactly
when the key was absent before the call, and then the store maps the key to
the value of the lock; the time to live equals the expiry of the lock when the
expiry is a positive whole number of milliseconds, and there is no time to
live when the expiry is zero. -/
theorem tryLock_set_if_absent (lock : DistributedLock) (ctx : Ctx) (c : Client)
    (hok : (lock.TryLock ctx c).1.2 = none) :
    ((lock.TryLock ctx c).1.1 = true ↔ lookupKey c.db ctx.now lock.key = none) ∧
      ((lock.TryLock ctx c).1.1 = true →
        (lock.TryLock ctx c).2.db =
            c.db.insert lock.key ⟨lock.value, leaseEnd ctx.now lock.expiry⟩ ∧
          GET (lock.TryLock ctx c).2.db ctx.now lock.key = some lock.value ∧
          (∀ ms : Nat, 0 < ms → lock.expiry = (ms : Int) * Millisecond →
            PTTL (lock.TryLock ctx c).2.db ctx.now lock.key = some ms) ∧
          (lock.expiry = 0 →
            (lock.TryLock ctx c).2.db lock.key = some ⟨lock.value, none⟩)) := by
  obtain ⟨hf, hacc⟩ := (tryLock_err_none_iff lock ctx c).mp hok
  have hiff := tryLock_true_iff lock ctx c
  refine ⟨⟨fun h => (hiff.mp h).2.2, fun h => hiff.mpr ⟨hf, hacc, h⟩⟩, ?_⟩
  intro htrue
  have hctx : ctx = ⟨ctx.now, .healthy⟩ := by cases ctx; simp_all
  have hdb : (lock.TryLock ctx c).2.db =
      c.db.insert lock.key ⟨lock.value, leaseEnd ctx.now lock.expiry⟩ := by
    rcases tryLock_healthy_cases lock ctx.now c with ⟨hn, _⟩ | ⟨_, ⟨e, he⟩, _⟩ | ⟨_, _, h⟩
    · exact absurd hacc hn
    · rw [(hiff.mp htrue).2.2] at he; cases he
    · rw [hctx, h]
  have hget : ∀ w : Option Nat, (∀ x, w = some x → ctx.now ≤ x) →
      lookupKey (c.db.insert lock.key ⟨lock.value, w⟩) ctx.now lock.key
        = some ⟨lock.value, w⟩ := by
    intro w hw
    cases w with
    | none => simp [lookupKey, DB.insert, Entry.expired]
    | some x =>
      have := hw x rfl
      simp [lookupKey, DB.insert, Entry.expired]
      omega
  have hle : ∀ x, leaseEnd ctx.now lock.expiry = some x → ctx.now ≤ x := by
    intro x hx
    unfold leaseEnd at hx
    cases hm : (setNXExpire lock.expiry).millis with
    | none => rw [hm] at hx; cases hx
    | some ms =>
      rw [hm] at hx
      simp only [Option.map_some', Option.some.injEq] at hx
      omega
  refine ⟨hdb, ?_, ?_, ?_⟩
  · rw [hdb]; simp [GET, hget _ hle]
  · intro ms hms hexp
    rw [hdb]
    have hend : leaseEnd ctx.now lock.expiry = some (ctx.now + ms) := by
      rw [hexp]; exact leaseEnd_whole ctx.now ms hms
    have := hget _ hle
    rw [hend] at this
    simp [PTTL, hend, this]
  · intro hz
    rw [hdb, hz, leaseEnd_zero]
    simp [DB.insert]

/-- C4 amended, at a concrete input: a lease of ten seconds on an absent key. -/
theorem tryLock_set_if_absent_witness :
    ((DistributedLock.mk "job-42" "A1" (10 * Second)).TryLock ⟨7, .healthy⟩
        ⟨DB.empty, 0⟩).1.2 = none ∧
      PTTL ((DistributedLock.mk "job-42" "A1" (10 * Second)).TryLock ⟨7, .healthy⟩
        ⟨DB.empty, 0⟩).2.db 7 "job-42" = some 10000 :=
  ⟨by decide,
   ((tryLock_set_if_absent (DistributedLock.mk "job-42" "A1" (10 * Second)) ⟨7, .healthy⟩
      ⟨DB.empty, 0⟩ (by decide)).2 (by decide)).2.2.1 10000 (by decide) (by decide)⟩

/-! ### C2, C3: `Unlock` and `Renew` of a lock that is not the owner -/

/-- C2. When the store call succeeds, `Unlock` returns the error "lock not
held by current client" exactly when the key of the lock is absent from the
store or holds a value different from the value of the lock, and in that case
the database is left as it was (value and expiry of the key included). -/
theorem unlock_not_owner (lock : DistributedLock) (ctx : Ctx) (c : Client)
    (hok : ctx.fault = .healthy) :
    ((lock.Unlock ctx c).1 = some .notHeld ↔ notOwner lock c.db ctx.now) ∧
      (notOwner lock c.db ctx.now →
        (lock.Unlock ctx c).2.db = c.db ∧
          Error.message .notHeld = "lock not held by current client") := by
  have hctx : ctx = ⟨ctx.now, .healthy⟩ := by cases ctx; simp_all
  rw [notOwner_iff]
  rw [hctx, unlock_healthy]
  by_cases h : GET c.db ctx.now lock.key = some lock.value
  · simp [h]
  · simp [h, Error.message]

/-- C2, at a concrete input: the key is held by another owner. -/
theorem unlock_not_owner_witness :
    (Ctx.mk 6000 .healthy).fault = .healthy ∧
      ((DistributedLock.mk "job-42" "A1" (5 * Second)).Unlock ⟨6000, .healthy⟩
          ⟨DB.empty.insert "job-42" ⟨"B1", some 11000⟩, 0⟩).1 = some .notHeld :=
  ⟨rfl,
   (unlock_not_owner (DistributedLock.mk "job-42" "A1" (5 * Second)) ⟨6000, .healthy⟩
      ⟨DB.empty.insert "job-42" ⟨"B1", some 11000⟩, 0⟩ rfl).1.mpr
      (Or.inr ⟨"B1", by decide, by decide⟩)⟩

/-- C3. When the store call succeeds, `Renew` returns the error "lock not held
by current client" exactly when the key of the lock is absent from the store
or holds a value different from the value of the lock, and in that case the
database is left as it was: the expiry of the key is not changed. -/
theorem renew_not_owner (lock : DistributedLock) (ctx : Ctx) (c : Client)
    (hok : ctx.fault = .healthy) :
    ((lock.Renew ctx c).1 = some .notHeld ↔ notOwner lock c.db ctx.now) ∧
      (notOwner lock c.db ctx.now →
        (lock.Renew ctx c).2.db = c.db ∧
          PTTL (lock.Renew ctx c).2.db ctx.now lock.key = PTTL c.db ctx.now lock.key ∧
          Error.message .notHeld = "lock not held by current client") := by
  have hctx : ctx = ⟨ctx.now, .healthy⟩ := by cases ctx; simp_all
  rw [notOwner_iff]
  rw [hctx, renew_healthy]
  by_cases h : GET c.db ctx.now lock.key = some lock.value
  · simp [h]
  · simp [h, Error.message]

/-- C3, at a concrete input: the key is held by another owner. -/
theorem renew_not_owner_witness :
    (Ctx.mk 6000 .healthy).fault = .healthy ∧
      ((DistributedLock.mk "job-42" "A1" (5 * Second)).Renew ⟨6000, .healthy⟩
          ⟨DB.empty.insert "job-42" ⟨"B1", some 11000⟩, 0⟩).2.db
        = DB.empty.insert "job-42" ⟨"B1", some 11000⟩ :=
  ⟨rfl,
   ((renew_not_owner (DistributedLock.mk "job-42" "A1" (5 * Second)) ⟨6000, .healthy⟩
      ⟨DB.empty.insert "job-42" ⟨"B1", some 11000⟩, 0⟩ rfl).2
      (Or.inr ⟨"B1", by decide, by decide⟩)).1⟩

/-! ### C8: store failures are surfaced -/

/-- Every communication failure is a failure of the store call, for the three
methods alike. -/
theorem fault_surfaced (lock : DistributedLock) (ctx : Ctx) (c : Client) (msg : String)
    (h : ctx.fault = .requestLost msg ∨ ctx.fault = .replyLost msg) :
    (lock.TryLock ctx c).1 = (false, some (.store msg)) ∧
      (lock.Unlock ctx c).1 = some (.store msg) ∧
      (lock.Renew ctx c).1 = some (.store msg) := by
  have h1 := roundTrip_fault c ctx
    (fun db now => SETNX db now lock.key lock.value (setNXExpire lock.expiry)) msg h
  have h2 := roundTrip_fault c ctx
    (fun db now => (Except.ok (unlockScript lock.key lock.value db now).1,
      (unlockScript lock.key lock.value db now).2)) msg h
  have h3 := roundTrip_fault c ctx
    (fun db now =>
      (Except.ok (renewScript lock.key lock.value (secondsInt lock.expiry) db now).1,
        (renewScript lock.key lock.value (secondsInt lock.expiry) db now).2)) msg h
  refine ⟨?_, ?_, ?_⟩
  · unfold DistributedLock.TryLock Client.SetNX
    simp only [h1]
  · unfold DistributedLock.Unlock Client.Run
    simp only [h2]
  · unfold DistributedLock.Renew Client.Run
    simp only [h3]

/-- C8. When the store call of a method fails with error `e` (a lost request,
a lost reply, or a command the server refuses), `TryLock` returns `(false, e)`,
`Unlock` returns `e` and `Renew` returns `e`; each method makes exactly one
call on the client, failed or not; and `TryLock` never returns true together
with an error. -/
theorem store_failure_surfaced (lock : DistributedLock) (ctx : Ctx) (c : Client) :
    (∀ e, (c.SetNX ctx lock.key lock.value lock.expiry).1 = .error e →
        (lock.TryLock ctx c).1 = (false, some e)) ∧
      (∀ e, (c.Run ctx (unlockScript lock.key lock.value)).1 = .error e →
        (lock.Unlock ctx c).1 = some e) ∧
      (∀ e, (c.Run ctx (renewScript lock.key lock.value (secondsInt lock.expiry))).1
          = .error e → (lock.Renew ctx c).1 = some e) ∧
      (∀ msg, ctx.fault = .requestLost msg ∨ ctx.fault = .replyLost msg →
        (lock.TryLock ctx c).1 = (false, some (.store msg)) ∧
          (lock.Unlock ctx c).1 = some (.store msg) ∧
          (lock.Renew ctx c).1 = some (.store msg)) ∧
      (lock.TryLock ctx c).2.calls = c.calls + 1 ∧
      (lock.Unlock ctx c).2.calls = c.calls + 1 ∧
      (lock.Renew ctx c).2.calls = c.calls + 1 ∧
      ((lock.TryLock ctx c).1.1 = true → (lock.TryLock ctx c).1.2 = none) := by
  refine ⟨?_, ?_, ?_, ?_, ?_, ?_, ?_, ?_⟩
  · intro e hset
    unfold DistributedLock.TryLock
    simp only [hset]
  · intro e hdel
    unfold DistributedLock.Unlock
    simp only [hdel]
  · intro e hexp
    unfold DistributedLock.Renew
    simp only [hexp]
  · intro msg h
    exact fault_surfaced lock ctx c msg h
  · rw [tryLock_snd]; exact roundTrip_calls c ctx _
  · rw [unlock_snd]; exact roundTrip_calls c ctx _
  · rw [renew_snd]; exact roundTrip_calls c ctx _
  · intro h
    obtain ⟨hf, hacc, _⟩ := (tryLock_true_iff lock ctx c).mp h
    exact (tryLock_err_none_iff lock ctx c).mpr ⟨hf, hacc⟩

/-- C8, at concrete inputs: the reply is lost on the network, and the server
refuses a negative expiry. -/
theorem store_failure_surfaced_witness :
    ((DistributedLock.mk "job-42" "A1" (5 * Second)).TryLock ⟨0, .replyLost "i/o timeout"⟩
        ⟨DB.empty, 0⟩).1 = (false, some (.store "i/o timeout")) ∧
      ((DistributedLock.mk "job-42" "A1" (-5 * Second)).TryLock ⟨0, .healthy⟩
        ⟨DB.empty, 0⟩).1 = (false, some (.store "ERR invalid expire time in set")) :=
  ⟨(store_failure_surfaced (DistributedLock.mk "job-42" "A1" (5 * Second))
      ⟨0, .replyLost "i/o timeout"⟩ ⟨DB.empty, 0⟩).1 (.store "i/o timeout") rfl,
   (store_failure_surfaced (DistributedLock.mk "job-42" "A1" (-5 * Second))
      ⟨0, .healthy⟩ ⟨DB.empty, 0⟩).1 (.store "ERR invalid expire time in set") rfl⟩

/-! ### C1, C9: mutual exclusion and hand-over -/

/-- The entry a successful `TryLock` creates is visible at the instant of the
call. -/
theorem leaseEnd_ge (t : Nat) (d : Int) (x : Nat) (h : leaseEnd t d = some x) :
    t ≤ x := by
  unfold leaseEnd at h
  cases hm : (setNXExpire d).millis with
  | none => rw [hm] at h; cases h
  | some ms =>
    rw [hm] at h
    simp only [Option.map_some', Option.some.injEq] at h
    omega

theorem lookupKey_insert_self (db : DB) (now : Nat) (key : String) (e : Entry)
    (h : e.expired now = false) : lookupKey (db.insert key e) now key = some e := by
  simp [lookupKey, DB.insert, h]

theorem lookupKey_erase_self (db : DB) (now : Nat) (key : String) :
    lookupKey (db.erase key) now key = none := by
  simp [lookupKey, DB.erase]

/-- C1. Two locks on the same key with distinct values call `TryLock` one
after the other, with no store failure, and the entry of the key that is
visible after the first call has not expired at the second call.  Then the
two calls do not both return true; and when the key was absent before the
first call, the first call returns true and the second returns false. -/
theorem tryLock_mutual_exclusion (A B : DistributedLock) (t1 t2 : Nat) (c : Client)
    (hkey : A.key = B.key) (_hval : A.value ≠ B.value)
    (hlive : ∀ e, lookupKey (A.TryLock ⟨t1, .healthy⟩ c).2.db t1 A.key = some e →
      e.expired t2 = false) :
    ¬ ((A.TryLock ⟨t1, .healthy⟩ c).1.1 = true ∧
        (B.TryLock ⟨t2, .healthy⟩ (A.TryLock ⟨t1, .healthy⟩ c).2).1.1 = true) ∧
      (lookupKey c.db t1 A.key = none → (A.TryLock ⟨t1, .healthy⟩ c).1.2 = none →
        (A.TryLock ⟨t1, .healthy⟩ c).1.1 = true ∧
          (B.TryLock ⟨t2, .healthy⟩ (A.TryLock ⟨t1, .healthy⟩ c).2).1.1 = false) := by
  have hsecond : (A.TryLock ⟨t1, .healthy⟩ c).1.1 = true →
      (B.TryLock ⟨t2, .healthy⟩ (A.TryLock ⟨t1, .healthy⟩ c).2).1.1 = false := by
    intro h1
    obtain ⟨_, hacc, habs⟩ := (tryLock_true_iff A ⟨t1, .healthy⟩ c).mp h1
    have hdb : (A.TryLock ⟨t1, .healthy⟩ c).2.db =
        c.db.insert A.key ⟨A.value, leaseEnd t1 A.expiry⟩ := by
      rcases tryLock_healthy_cases A t1 c with ⟨hn, _⟩ | ⟨_, ⟨e, he⟩, _⟩ | ⟨_, _, h⟩
      · exact absurd hacc hn
      · rw [habs] at he; cases he
      · rw [h]
    have hvis : lookupKey (A.TryLock ⟨t1, .healthy⟩ c).2.db t1 A.key
        = some ⟨A.value, leaseEnd t1 A.expiry⟩ := by
      rw [hdb]
      apply lookupKey_insert_self
      cases hx : leaseEnd t1 A.expiry with
      | none => simp [Entry.expired]
      | some x =>
        have := leaseEnd_ge t1 A.expiry x hx
        simp [Entry.expired]; omega
    have hexp := hlive _ hvis
    have hvis2 : lookupKey (A.TryLock ⟨t1, .healthy⟩ c).2.db t2 B.key
        = some ⟨A.value, leaseEnd t1 A.expiry⟩ := by
      rw [hdb, ← hkey]
      exact lookupKey_insert_self _ _ _ _ hexp
    exact (tryLock_contended_frame B ⟨t2, .healthy⟩ _ _ hvis2).1
  refine ⟨fun ⟨h1, h2⟩ => ?_, fun habs hok => ?_⟩
  · rw [hsecond h1] at h2; cases h2
  · have h1 : (A.TryLock ⟨t1, .healthy⟩ c).1.1 = true :=
      (tryLock_true_iff A ⟨t1, .healthy⟩ c).mpr
        ⟨rfl, ((tryLock_err_none_iff A ⟨t1, .healthy⟩ c).mp hok).2, habs⟩
    exact ⟨h1, hsecond h1⟩

/-- C1, at a concrete input: two owners race for an absent key. -/
theorem tryLock_mutual_exclusion_witness :
    ((DistributedLock.mk "job-42" "A1" (10 * Second)).TryLock ⟨0, .healthy⟩
        ⟨DB.empty, 0⟩).1.1 = true ∧
      ((DistributedLock.mk "job-42" "B1" (10 * Second)).TryLock ⟨3, .healthy⟩
        ((DistributedLock.mk "job-42" "A1" (10 * Second)).TryLock ⟨0, .healthy⟩
          ⟨DB.empty, 0⟩).2).1.1 = false :=
  (tryLock_mutual_exclusion (DistributedLock.mk "job-42" "A1" (10 * Second))
    (DistributedLock.mk "job-42" "B1" (10 * Second)) 0 3 ⟨DB.empty, 0⟩ rfl (by decide)
    (by
      intro e he
      have h : lookupKey ((DistributedLock.mk "job-42" "A1" (10 * Second)).TryLock
          ⟨0, .healthy⟩ ⟨DB.empty, 0⟩).2.db 0 "job-42" = some ⟨"A1", some 10000⟩ := by decide
      rw [show (DistributedLock.mk "job-42" "A1" (10 * Second)).key = "job-42" from rfl, h] at he
      cases he
      decide)).2 (by decide) (by decide)

/-- C9. On an absent key, with two locks `A` and `B` on that key with distinct
values, no store failure, and the lease of `A` not expiring before `A` unlocks:
`A.TryLock`, `B.TryLock`, `A.Unlock`, `B.TryLock` return true, false, nil, true
in that order, and afterwards the store holds the key with the value of `B`. -/
theorem release_hands_over (A B : DistributedLock) (t1 t2 t3 t4 : Nat) (c : Client)
    (hkey : A.key = B.key) (_hval : A.value ≠ B.value)
    (habs : lookupKey c.db t1 A.key = none)
    (hokA : expiryAccepted A.expiry) (hokB : expiryAccepted B.expiry)
    (hlive : ∀ e, lookupKey (A.TryLock ⟨t1, .healthy⟩ c).2.db t1 A.key = some e →
      e.expired t2 = false ∧ e.expired t3 = false) :
    (A.TryLock ⟨t1, .healthy⟩ c).1 = (true, none) ∧
      (B.TryLock ⟨t2, .healthy⟩ (A.TryLock ⟨t1, .healthy⟩ c).2).1 = (false, none) ∧
      (A.Unlock ⟨t3, .healthy⟩
        (B.TryLock ⟨t2, .healthy⟩ (A.TryLock ⟨t1, .healthy⟩ c).2).2).1 = none ∧
      (B.TryLock ⟨t4, .healthy⟩ (A.Unlock ⟨t3, .healthy⟩
        (B.TryLock ⟨t2, .healthy⟩ (A.TryLock ⟨t1, .healthy⟩ c).2).2).2).1 = (true, none) ∧
      GET (B.TryLock ⟨t4, .healthy⟩ (A.Unlock ⟨t3, .healthy⟩
        (B.TryLock ⟨t2, .healthy⟩ (A.TryLock ⟨t1, .healthy⟩ c).2).2).2).2.db t4 A.key
        = some B.value := by
  -- first call: `A` creates the key
  have h1 : A.TryLock ⟨t1, .healthy⟩ c =
      ((true, none), ⟨c.db.insert A.key ⟨A.value, leaseEnd t1 A.expiry⟩, c.calls + 1⟩) := by
    rcases tryLock_healthy_cases A t1 c with ⟨hn, _⟩ | ⟨_, ⟨e, he⟩, _⟩ | ⟨_, _, h⟩
    · exact absurd hokA hn
    · rw [habs] at he; cases he
    · exact h
  have hvis : lookupKey (A.TryLock ⟨t1, .healthy⟩ c).2.db t1 A.key
      = some ⟨A.value, leaseEnd t1 A.expiry⟩ := by
    rw [h1]
    apply lookupKey_insert_self
    cases hx : leaseEnd t1 A.expiry with
    | none => simp [Entry.expired]
    | some x =>
      have := leaseEnd_ge t1 A.expiry x hx
      simp [Entry.expired]; omega
  obtain ⟨hl2, hl3⟩ := hlive _ hvis
  rw [h1]
  -- second call: `B` finds the key
  have h2 : B.TryLock ⟨t2, .healthy⟩
      ⟨c.db.insert A.key ⟨A.value, leaseEnd t1 A.expiry⟩, c.calls + 1⟩ =
      ((false, none), ⟨c.db.insert A.key ⟨A.value, leaseEnd t1 A.expiry⟩, c.calls + 2⟩) := by
    rcases tryLock_healthy_cases B t2
      ⟨c.db.insert A.key ⟨A.value, leaseEnd t1 A.expiry⟩, c.calls + 1⟩
      with ⟨hn, _⟩ | ⟨_, _, h⟩ | ⟨_, hl, _⟩
    · exact absurd hokB hn
    · exact h
    · rw [← hkey] at hl
      have := lookupKey_insert_self c.db t2 A.key ⟨A.value, leaseEnd t1 A.expiry⟩ hl2
      simp only at hl
      rw [this] at hl; cases hl
  rw [h2]
  -- third call: `A` deletes its key
  have h3 : A.Unlock ⟨t3, .healthy⟩
      ⟨c.db.insert A.key ⟨A.value, leaseEnd t1 A.expiry⟩, c.calls + 2⟩ =
      (none, ⟨(c.db.insert A.key ⟨A.value, leaseEnd t1 A.expiry⟩).erase A.key,
        c.calls + 3⟩) := by
    rw [unlock_healthy]
    have hg : GET (c.db.insert A.key ⟨A.value, leaseEnd t1 A.expiry⟩) t3 A.key
        = some A.value := by
      simp [GET, lookupKey_insert_self c.db t3 A.key ⟨A.value, leaseEnd t1 A.expiry⟩ hl3]
    simp [hg]
  rw [h3]
  -- fourth call: `B` creates the key
  have h4 : B.TryLock ⟨t4, .healthy⟩
      ⟨(c.db.insert A.key ⟨A.value, leaseEnd t1 A.expiry⟩).erase A.key, c.calls + 3⟩ =
      ((true, none),
        ⟨((c.db.insert A.key ⟨A.value, leaseEnd t1 A.expiry⟩).erase A.key).insert B.key
          ⟨B.value, leaseEnd t4 B.expiry⟩, c.calls + 4⟩) := by
    rcases tryLock_healthy_cases B t4
      ⟨(c.db.insert A.key ⟨A.value, leaseEnd t1 A.expiry⟩).erase A.key, c.calls + 3⟩
      with ⟨hn, _⟩ | ⟨_, ⟨e, he⟩, _⟩ | ⟨_, _, h⟩
    · exact absurd hokB hn
    · rw [← hkey] at he
      simp only at he
      rw [lookupKey_erase_self] at he; cases he
    · exact h
  rw [h4]
  refine ⟨rfl, rfl, rfl, rfl, ?_⟩
  rw [hkey]
  have : lookupKey (((c.db.insert B.key ⟨A.value, leaseEnd t1 A.expiry⟩).erase B.key).insert
      B.key ⟨B.value, leaseEnd t4 B.expiry⟩) t4 B.key
      = some ⟨B.value, leaseEnd t4 B.expiry⟩ := by
    apply lookupKey_insert_self
    cases hx : leaseEnd t4 B.expiry with
    | none => simp [Entry.expired]
    | some x =>
      have := leaseEnd_ge t4 B.expiry x hx
      simp [Entry.expired]; omega
  simp [GET, this]

/-- C9, at a concrete input: the scenario of the two leases on `job-42`. -/
theorem release_hands_over_witness :
    ((DistributedLock.mk "job-42" "B1" (10 * Second)).TryLock ⟨3, .healthy⟩
        ((DistributedLock.mk "job-42" "A1" (10 * Second)).Unlock ⟨2, .healthy⟩
          ((DistributedLock.mk "job-42" "B1" (10 * Second)).TryLock ⟨1, .healthy⟩
            ((DistributedLock.mk "job-42" "A1" (10 * Second)).TryLock ⟨0, .healthy⟩
              ⟨DB.empty, 0⟩).2).2).2).1 = (true, none) :=
  (release_hands_over (DistributedLock.mk "job-42" "A1" (10 * Second))
    (DistributedLock.mk "job-42" "B1" (10 * Second)) 0 1 2 3 ⟨DB.empty, 0⟩ rfl (by decide)
    (by decide)
    (by intro ms h; have h1 : ms = 10000 := by
          have h2 : (setNXExpire (10 * Second)).millis = some 10000 := by decide
          rw [show (DistributedLock.mk "job-42" "A1" (10 * Second)).expiry = 10 * Second
            from rfl, h2] at h
          cases h; rfl
        omega)
    (by intro ms h; have h1 : ms = 10000 := by
          have h2 : (setNXExpire (10 * Second)).millis = some 10000 := by decide
          rw [show (DistributedLock.mk "job-42" "B1" (10 * Second)).expiry = 10 * Second
            from rfl, h2] at h
          cases h; rfl
        omega)
    (by
      intro e he
      have h : lookupKey ((DistributedLock.mk "job-42" "A1" (10 * Second)).TryLock
          ⟨0, .healthy⟩ ⟨DB.empty, 0⟩).2.db 0 "job-42" = some ⟨"A1", some 10000⟩ := by decide
      rw [show (DistributedLock.mk "job-42" "A1" (10 * Second)).key = "job-42" from rfl, h] at he
      cases he
      exact ⟨by decide, by decide⟩)).2.2.2.1

/-! ### C6: the time to live is honored -/

theorem tdiv_nonpos_of_nonpos (d : Int) (h : d ≤ 0) : Int.tdiv d 1000000 ≤ 0 := by
  obtain ⟨n, hn⟩ : ∃ n : Int, d = -n ∧ 0 ≤ n := ⟨-d, by omega, by omega⟩
  rw [hn.1, Int.neg_tdiv, Int.tdiv_eq_ediv hn.2 (by omega)]
  have : 0 ≤ n / 1000000 := Int.ediv_nonneg hn.2 (by omega)
  omega

/-- The time to live `TryLock` asks for, when the server accepts it, covers
the duration down to the millisecond. -/
theorem millis_covers (d : Int) (ms : Int) (hm : (setNXExpire d).millis = some ms)
    (hpos : 0 < ms) : d < (ms + 1) * 1000000 := by
  unfold setNXExpire KeepTTL at hm
  by_cases h0 : d = 0
  · rw [if_pos h0] at hm; cases hm
  rw [if_neg h0] at hm
  by_cases h1 : d = -1
  · rw [if_pos h1] at hm; cases hm
  rw [if_neg h1] at hm
  by_cases hp : usePrecise d = true
  · rw [if_pos hp] at hm
    simp only [SetExpire.millis, formatMs, Millisecond, Option.some.injEq] at hm
    by_cases hs : 0 < d ∧ d < 1000000
    · rw [if_pos hs] at hm
      have := hs.2
      omega
    · rw [if_neg hs] at hm
      by_cases hd : 0 ≤ d
      · rw [Int.tdiv_eq_ediv hd (by omega)] at hm
        omega
      · have := tdiv_nonpos_of_nonpos d (by omega)
        omega
  · rw [if_neg hp] at hm
    simp only [usePrecise, Second, Bool.or_eq_true, decide_eq_true_eq, not_or, not_lt,
      ne_eq, not_not] at hp
    obtain ⟨h3, h4⟩ := hp
    have h3 : (1000000000 : Int) ≤ d := h3
    have h4 : Int.tmod d 1000000000 = 0 := h4
    have h5 : ¬ (0 < d ∧ d < 1000000000) := by omega
    simp only [SetExpire.millis, formatSec, Second, Option.some.injEq] at hm
    rw [if_neg h5, Int.tdiv_eq_ediv (by omega) (by omega)] at hm
    rw [Int.tmod_eq_emod (by omega) (by omega)] at h4
    omega

/-- The server accepts the expiry of `TryLock` exactly for a duration that is
not negative, or is `redis.KeepTTL`. -/
theorem expiryAccepted_iff (d : Int) : expiryAccepted d ↔ 0 ≤ d ∨ d = KeepTTL := by
  unfold expiryAccepted setNXExpire KeepTTL
  by_cases h0 : d = 0
  · simp [h0, SetExpire.millis]
  by_cases h1 : d = -1
  · simp [h1, SetExpire.millis]
  rw [if_neg h0, if_neg h1]
  by_cases hp : usePrecise d = true
  · rw [if_pos hp]
    simp only [SetExpire.millis, formatMs, Millisecond, Option.some.injEq, forall_eq']
    by_cases hs : 0 < d ∧ d < 1000000
    · rw [if_pos hs]
      have := hs.1
      constructor
      · intro _; left; omega
      · intro _; omega
    · rw [if_neg hs]
      by_cases hd : 0 ≤ d
      · rw [Int.tdiv_eq_ediv hd (by omega)]
        constructor
        · intro _; left; exact hd
        · intro _; omega
      · have := tdiv_nonpos_of_nonpos d (by omega)
        constructor
        · intro h; omega
        · intro h; omega
  · rw [if_neg hp]
    simp only [usePrecise, Second, Bool.or_eq_true, decide_eq_true_eq, not_or, not_lt,
      ne_eq, not_not] at hp
    obtain ⟨h3, h4⟩ := hp
    have h3 : (1000000000 : Int) ≤ d := h3
    have h5 : ¬ (0 < d ∧ d < 1000000000) := by omega
    simp only [SetExpire.millis, formatSec, Second, Option.some.injEq, forall_eq']
    rw [if_neg h5, Int.tdiv_eq_ediv (by omega) (by omega)]
    constructor
    · intro _; left; omega
    · intro _; omega

/-- An entry created by `TryLock` at the instant `t` for the duration `d` is
visible at every instant earlier than `t + d`. -/
theorem leaseEnd_covers (v : String) (t a : Nat) (d : Int) (hacc : expiryAccepted d)
    (hlt : earlierThan a t d) :
    (Entry.mk v (leaseEnd t d)).expired a = false := by
  unfold leaseEnd
  cases hm : (setNXExpire d).millis with
  | none => simp [Entry.expired]
  | some ms =>
    have hpos := hacc ms hm
    have hc := millis_covers d ms hm hpos
    unfold earlierThan Millisecond at hlt
    have hlt : (a : Int) * 1000000 < (t : Int) * 1000000 + d := hlt
    simp only [Option.map_some', Entry.expired, decide_eq_false_iff_not, not_lt]
    omega

theorem SETNX_frame (db : DB) (now : Nat) (key value : String) (exp : SetExpire)
    (k : String) (hk : k ≠ key) : (SETNX db now key value exp).2 k = db k := by
  rcases SETNX_cases db now key value exp with ⟨ms, _, _, h⟩ | ⟨_, _, h⟩ | ⟨_, _, h⟩
  · rw [h]
  · rw [h]
  · rw [h]; simp [DB.insert, hk]

theorem DEL_frame (db : DB) (now : Nat) (key k : String) (hk : k ≠ key) :
    (DEL db now key).2 k = db k := by
  unfold DEL
  cases lookupKey db now key <;> simp [DB.erase, hk]

theorem EXPIRE_frame (db : DB) (now : Nat) (key : String) (seconds : Int) (k : String)
    (hk : k ≠ key) : (EXPIRE db now key seconds).2 k = db k := by
  unfold EXPIRE
  cases lookupKey db now key with
  | none => rfl
  | some e =>
    dsimp only
    split <;> simp [DB.erase, DB.insert, hk]

theorem unlockScript_frame (key value : String) (db : DB) (now : Nat) (k : String)
    (hk : k ≠ key) : (unlockScript key value db now).2 k = db k := by
  unfold unlockScript
  split
  · exact DEL_frame db now key k hk
  · rfl

theorem renewScript_frame (key value : String) (seconds : Int) (db : DB) (now : Nat)
    (k : String) (hk : k ≠ key) : (renewScript key value seconds db now).2 k = db k := by
  unfold renewScript
  split
  · exact EXPIRE_frame db now key seconds k hk
  · rfl

theorem GET_of_entry (db : DB) (now : Nat) (key : String) (e : Entry)
    (hdb : db key = some e) (hexp : e.expired now = false) :
    lookupKey db now key = some e ∧ GET db now key = some e.value := by
  have : lookupKey db now key = some e := by simp [lookupKey, hdb, hexp]
  exact ⟨this, by simp [GET, this]⟩

/-- A call that is neither an `Unlock` nor a `Renew` made with the key and the
value of a visible entry leaves that entry as it is. -/
theorem step_preserves (st : Step) (c : Client) (owner : DistributedLock) (e : Entry)
    (hdb : c.db owner.key = some e) (hval : e.value = owner.value)
    (hexp : e.expired st.ctx.now = false) (hnot : ¬ st.actsFor owner) :
    (st.run c).db owner.key = some e := by
  obtain ⟨hl, hg⟩ := GET_of_entry c.db st.ctx.now owner.key e hdb hexp
  unfold Step.run
  cases hop : st.op with
  | tryLock =>
    dsimp only
    rcases tryLock_db st.lock st.ctx c with h | h
    · rw [h]; exact hdb
    · rw [h]
      by_cases hk : owner.key = st.lock.key
      · rw [hk] at hl
        rw [SETNX_present c.db st.ctx.now st.lock.key st.lock.value _ e hl]
        exact hdb
      · rw [SETNX_frame _ _ _ _ _ _ hk]; exact hdb
  | unlock =>
    dsimp only
    rcases unlock_db st.lock st.ctx c with h | h
    · rw [h]; exact hdb
    · rw [h]
      by_cases hk : owner.key = st.lock.key
      · have hv : st.lock.value ≠ owner.value := by
          intro hv
          exact hnot ⟨by rw [hop]; simp, hk.symm, hv⟩
        have hne : GET c.db st.ctx.now st.lock.key ≠ some st.lock.value := by
          rw [← hk, hg, hval]
          intro heq
          exact hv (Option.some.inj heq).symm
        simp only [unlockScript, if_neg hne]
        exact hdb
      · rw [unlockScript_frame _ _ _ _ _ hk]; exact hdb
  | renew =>
    dsimp only
    rcases renew_db st.lock st.ctx c with h | h
    · rw [h]; exact hdb
    · rw [h]
      by_cases hk : owner.key = st.lock.key
      · have hv : st.lock.value ≠ owner.value := by
          intro hv
          exact hnot ⟨by rw [hop]; simp, hk.symm, hv⟩
        have hne : GET c.db st.ctx.now st.lock.key ≠ some st.lock.value := by
          rw [← hk, hg, hval]
          intro heq
          exact hv (Option.some.inj heq).symm
        simp only [renewScript, if_neg hne]
        exact hdb
      · rw [renewScript_frame _ _ _ _ _ _ hk]; exact hdb

theorem runSteps_preserves (steps : List Step) (c : Client) (owner : DistributedLock)
    (e : Entry) (hdb : c.db owner.key = some e) (hval : e.value = owner.value)
    (hsteps : ∀ st ∈ steps, e.expired st.ctx.now = false ∧ ¬ st.actsFor owner) :
    (runSteps steps c).db owner.key = some e := by
  induction steps generalizing c with
  | nil => exact hdb
  | cons st rest ih =>
    unfold runSteps
    apply ih
    · exact step_preserves st c owner e hdb hval
        (hsteps st (List.mem_cons_self _ _)).1 (hsteps st (List.mem_cons_self _ _)).2
    · intro s hs
      exact hsteps s (List.mem_cons_of_mem _ hs)

/-- C6. Lock `A` with expiry `d` got true from `TryLock` at the instant `t`.
Whatever calls follow, as long as none of them is an `Unlock` or a `Renew` of
`A` and all of them run earlier than `t + d`, a `TryLock` on the same key by a
lock with a different value, run earlier than `t + d`, returns false, and the
key still holds the value of `A`. -/
theorem ttl_honored (A B : DistributedLock) (ctxA ctxB : Ctx) (c : Client)
    (steps : List Step)
    (hacq : (A.TryLock ctxA c).1.1 = true)
    (hsteps : ∀ st ∈ steps, ¬ st.actsFor A ∧ earlierThan st.ctx.now ctxA.now A.expiry)
    (hkey : B.key = A.key) (_hval : B.value ≠ A.value)
    (hearly : earlierThan ctxB.now ctxA.now A.expiry) :
    (B.TryLock ctxB (runSteps steps (A.TryLock ctxA c).2)).1.1 = false ∧
      GET (B.TryLock ctxB (runSteps steps (A.TryLock ctxA c).2)).2.db ctxB.now A.key
        = some A.value := by
  obtain ⟨hf, hacc, habs⟩ := (tryLock_true_iff A ctxA c).mp hacq
  have hctx : ctxA = ⟨ctxA.now, .healthy⟩ := by cases ctxA; simp_all
  have hdb : (A.TryLock ctxA c).2.db A.key = some ⟨A.value, leaseEnd ctxA.now A.expiry⟩ := by
    rcases tryLock_healthy_cases A ctxA.now c with ⟨hn, _⟩ | ⟨_, ⟨e, he⟩, _⟩ | ⟨_, _, h⟩
    · exact absurd hacc hn
    · rw [habs] at he; cases he
    · rw [hctx, h]; simp [DB.insert]
  have hrun := runSteps_preserves steps (A.TryLock ctxA c).2 A
    ⟨A.value, leaseEnd ctxA.now A.expiry⟩ hdb rfl
    (fun st hst => ⟨leaseEnd_covers A.value ctxA.now st.ctx.now A.expiry hacc
      (hsteps st hst).2, (hsteps st hst).1⟩)
  have hvis := GET_of_entry _ ctxB.now A.key _ hrun
    (leaseEnd_covers A.value ctxA.now ctxB.now A.expiry hacc hearly)
  have hfr := tryLock_contended_frame B ctxB (runSteps steps (A.TryLock ctxA c).2)
    ⟨A.value, leaseEnd ctxA.now A.expiry⟩ (by rw [hkey]; exact hvis.1)
  refine ⟨hfr.1, ?_⟩
  rw [hfr.2]
  exact hvis.2

/-- C6, at a concrete input: while the ten seconds of `A` run, a rival fails
to unlock, fails to renew, and fails to acquire. -/
theorem ttl_honored_witness :
    ((DistributedLock.mk "job-42" "B1" (10 * Second)).TryLock ⟨9999, .healthy⟩
        (runSteps
          [⟨DistributedLock.mk "job-42" "B1" (10 * Second), .unlock, ⟨100, .healthy⟩⟩,
           ⟨DistributedLock.mk "job-42" "B1" (10 * Second), .renew, ⟨200, .replyLost "eof"⟩⟩]
          ((DistributedLock.mk "job-42" "A1" (10 * Second)).TryLock ⟨0, .healthy⟩
            ⟨DB.empty, 0⟩).2)).1.1 = false :=
  (ttl_honored (DistributedLock.mk "job-42" "A1" (10 * Second))
    (DistributedLock.mk "job-42" "B1" (10 * Second)) ⟨0, .healthy⟩ ⟨9999, .healthy⟩
    ⟨DB.empty, 0⟩
    [⟨DistributedLock.mk "job-42" "B1" (10 * Second), .unlock, ⟨100, .healthy⟩⟩,
     ⟨DistributedLock.mk "job-42" "B1" (10 * Second), .renew, ⟨200, .replyLost "eof"⟩⟩]
    (by decide)
    (by
      intro st hst
      simp only [List.mem_cons, List.mem_singleton, List.not_mem_nil, or_false] at hst
      rcases hst with rfl | rfl
      · exact ⟨fun h => absurd h.2.2 (by decide), by unfold earlierThan; decide⟩
      · exact ⟨fun h => absurd h.2.2 (by decide), by unfold earlierThan; decide⟩)
    rfl (by decide) (by unfold earlierThan; decide)).1

/-! ### C5, C7: `Renew` and the lease duration -/

/-- C5 at its failing inputs.  With an expiry of 1.5 seconds, a `Renew` at the
instant 1000 returns nil and sets the expiry instant of the key to 2000, one
second later and not 1.5 seconds later: a rival acquires the key at 2001,
earlier than 1000 + 1500.  With an expiry of half a second, a `Renew` that
returns nil removes the key. -/
theorem renew_truncates_to_seconds :
    ((DistributedLock.mk "job-42" "A1" (1500 * Millisecond)).Renew ⟨1000, .healthy⟩
        ⟨DB.empty.insert "job-42" ⟨"A1", some 1500⟩, 0⟩).1 = none ∧
      ((DistributedLock.mk "job-42" "A1" (1500 * Millisecond)).Renew ⟨1000, .healthy⟩
        ⟨DB.empty.insert "job-42" ⟨"A1", some 1500⟩, 0⟩).2.db "job-42"
        = some ⟨"A1", some 2000⟩ ∧
      earlierThan 2001 1000 (1500 * Millisecond) ∧
      ((DistributedLock.mk "job-42" "B1" (1500 * Millisecond)).TryLock ⟨2001, .healthy⟩
        ((DistributedLock.mk "job-42" "A1" (1500 * Millisecond)).Renew ⟨1000, .healthy⟩
          ⟨DB.empty.insert "job-42" ⟨"A1", some 1500⟩, 0⟩).2).1 = (true, none) ∧
      ((DistributedLock.mk "job-42" "A1" (500 * Millisecond)).Renew ⟨100, .healthy⟩
        ⟨DB.empty.insert "job-42" ⟨"A1", some 500⟩, 0⟩).1 = none ∧
      ((DistributedLock.mk "job-42" "A1" (500 * Millisecond)).Renew ⟨100, .healthy⟩
        ⟨DB.empty.insert "job-42" ⟨"A1", some 500⟩, 0⟩).2.db "job-42" = none := by
  refine ⟨by decide, by decide, by unfold earlierThan; decide, by decide, by decide, by decide⟩

/-- C7 at its failing input.  With an expiry of half a second on an absent
key, `TryLock` returns true, `Renew` returns nil and removes the key, and
`Unlock` returns the error "lock not held by current client" and not nil. -/
theorem round_trip_subsecond_fails :
    ((DistributedLock.mk "job-42" "A1" (500 * Millisecond)).TryLock ⟨0, .healthy⟩
        ⟨DB.empty, 0⟩).1 = (true, none) ∧
      ((DistributedLock.mk "job-42" "A1" (500 * Millisecond)).Renew ⟨0, .healthy⟩
        ((DistributedLock.mk "job-42" "A1" (500 * Millisecond)).TryLock ⟨0, .healthy⟩
          ⟨DB.empty, 0⟩).2).1 = none ∧
      ((DistributedLock.mk "job-42" "A1" (500 * Millisecond)).Renew ⟨0, .healthy⟩
        ((DistributedLock.mk "job-42" "A1" (500 * Millisecond)).TryLock ⟨0, .healthy⟩
          ⟨DB.empty, 0⟩).2).2.db "job-42" = none ∧
      ((DistributedLock.mk "job-42" "A1" (500 * Millisecond)).Unlock ⟨0, .healthy⟩
        ((DistributedLock.mk "job-42" "A1" (500 * Millisecond)).Renew ⟨0, .healthy⟩
          ((DistributedLock.mk "job-42" "A1" (500 * Millisecond)).TryLock ⟨0, .healthy⟩
            ⟨DB.empty, 0⟩).2).2).1 = some .notHeld := by
  refine ⟨by decide, by decide, by decide, by decide⟩

theorem secondsInt_whole (s : Nat) : secondsInt ((s : Int) * Second) = s := by
  unfold secondsInt Second
  rw [Int.tdiv_eq_ediv (by omega) (by omega)]
  omega

/-- What a successful `Renew` does to the key: the expiry instant becomes the
instant of the call plus the whole seconds of the expiry of the lock, and the
key is removed when the expiry is shorter than one second. -/
theorem renew_effect (lock : DistributedLock) (t : Nat) (c : Client)
    (hheld : GET c.db t lock.key = some lock.value) :
    (lock.Renew ⟨t, .healthy⟩ c).1 = none ∧
      (lock.Renew ⟨t, .healthy⟩ c).2.db lock.key =
        if secondsInt lock.expiry * 1000 ≤ 0 then none
        else some ⟨lock.value, some (t + (secondsInt lock.expiry * 1000).toNat)⟩ := by
  obtain ⟨e, he, hv⟩ := (GET_eq_some_iff c.db t lock.key lock.value).mp hheld
  rw [renew_healthy, if_pos hheld]
  refine ⟨rfl, ?_⟩
  unfold EXPIRE
  simp only [he]
  split
  · simp [DB.erase]
  · simp [DB.insert, hv]

/-- For a lock whose expiry is a whole number of seconds, at least one, a
`Renew` by the owner at the instant `t` returns nil and sets the expiry
instant of the key to `t` plus the expiry. -/
theorem renew_resets_whole_seconds (lock : DistributedLock) (t : Nat) (c : Client) (s : Nat)
    (hs : 0 < s) (hd : lock.expiry = (s : Int) * Second)
    (hheld : GET c.db t lock.key = some lock.value) :
    (lock.Renew ⟨t, .healthy⟩ c).1 = none ∧
      (lock.Renew ⟨t, .healthy⟩ c).2.db lock.key = some ⟨lock.value, some (t + s * 1000)⟩ ∧
      PTTL (lock.Renew ⟨t, .healthy⟩ c).2.db t lock.key = some (s * 1000) := by
  obtain ⟨h1, h2⟩ := renew_effect lock t c hheld
  rw [hd, secondsInt_whole] at h2
  have hpos : ¬ ((s : Int) * 1000 ≤ 0) := by omega
  rw [if_neg hpos] at h2
  have h3 : ((s : Int) * 1000).toNat = s * 1000 := by omega
  rw [h3] at h2
  refine ⟨h1, h2, ?_⟩
  simp [PTTL, lookupKey, h2, Entry.expired]

theorem renew_resets_whole_seconds_example :
    PTTL ((DistributedLock.mk "job-42" "A1" (5 * Second)).Renew ⟨4000, .healthy⟩
        ⟨DB.empty.insert "job-42" ⟨"A1", some 5000⟩, 0⟩).2.db 4000 "job-42" = some 5000 :=
  (renew_resets_whole_seconds (DistributedLock.mk "job-42" "A1" (5 * Second)) 4000
    ⟨DB.empty.insert "job-42" ⟨"A1", some 5000⟩, 0⟩ 5 (by decide) (by decide)
    (by decide)).2.2

/-- For a lock whose expiry is one second or more, on an absent key and with
no lease expiring on the way: `TryLock`, `Renew`, `Unlock` return true, nil,
nil and leave the key absent. -/
theorem round_trip_of_second_or_more (lock : DistributedLock) (t : Nat) (c : Client)
    (hd : Second ≤ lock.expiry) (habs : lookupKey c.db t lock.key = none) :
    (lock.TryLock ⟨t, .healthy⟩ c).1 = (true, none) ∧
      (lock.Renew ⟨t, .healthy⟩ (lock.TryLock ⟨t, .healthy⟩ c).2).1 = none ∧
      (lock.Unlock ⟨t, .healthy⟩
        (lock.Renew ⟨t, .healthy⟩ (lock.TryLock ⟨t, .healthy⟩ c).2).2).1 = none ∧
      (lock.Unlock ⟨t, .healthy⟩
        (lock.Renew ⟨t, .healthy⟩ (lock.TryLock ⟨t, .healthy⟩ c).2).2).2.db lock.key
        = none := by
  have hd : (1000000000 : Int) ≤ lock.expiry := hd
  have hacc : expiryAccepted lock.expiry := (expiryAccepted_iff _).mpr (Or.inl (by omega))
  have h1 : lock.TryLock ⟨t, .healthy⟩ c =
      ((true, none),
        ⟨c.db.insert lock.key ⟨lock.value, leaseEnd t lock.expiry⟩, c.calls + 1⟩) := by
    rcases tryLock_healthy_cases lock t c with ⟨hn, _⟩ | ⟨_, ⟨e, he⟩, _⟩ | ⟨_, _, h⟩
    · exact absurd hacc hn
    · rw [habs] at he; cases he
    · exact h
  have hexp : (Entry.mk lock.value (leaseEnd t lock.expiry)).expired t = false := by
    apply leaseEnd_covers lock.value t t lock.expiry hacc
    unfold earlierThan
    omega
  have hg : GET (c.db.insert lock.key ⟨lock.value, leaseEnd t lock.expiry⟩) t lock.key
      = some lock.value := by
    simp [GET, lookupKey_insert_self c.db t lock.key _ hexp]
  rw [h1]
  have hsec : 1 ≤ secondsInt lock.expiry := by
    unfold secondsInt Second
    rw [Int.tdiv_eq_ediv (by omega) (by omega)]
    omega
  obtain ⟨h2, h3⟩ := renew_effect lock t
    ⟨c.db.insert lock.key ⟨lock.value, leaseEnd t lock.expiry⟩, c.calls + 1⟩ hg
  have hpos : ¬ (secondsInt lock.expiry * 1000 ≤ 0) := by omega
  rw [if_neg hpos] at h3
  have hg2 : GET (lock.Renew ⟨t, .healthy⟩
      ⟨c.db.insert lock.key ⟨lock.value, leaseEnd t lock.expiry⟩, c.calls + 1⟩).2.db t lock.key
      = some lock.value := by
    simp [GET, lookupKey, h3, Entry.expired]
  refine ⟨rfl, h2, ?_, ?_⟩
  · rw [unlock_healthy, if_pos hg2]
  · rw [unlock_healthy, if_pos hg2]
    simp [DB.erase]

theorem round_trip_of_second_or_more_example :
    ((DistributedLock.mk "job-42" "A1" (10 * Second)).Unlock ⟨0, .healthy⟩
        ((DistributedLock.mk "job-42" "A1" (10 * Second)).Renew ⟨0, .healthy⟩
          ((DistributedLock.mk "job-42" "A1" (10 * Second)).TryLock ⟨0, .healthy⟩
            ⟨DB.empty, 0⟩).2).2).1 = none :=
  (round_trip_of_second_or_more (DistributedLock.mk "job-42" "A1" (10 * Second)) 0
    ⟨DB.empty, 0⟩ (by decide) (by decide)).2.2.1

end Distribute
